import Mathlib

/-!
A shallow embedding of the AppCache-emulation runtime: the request-resolution
engine, manifest version store and cache garbage collector of
`src/sw-runtime.mjs`, and the manifest-update pipeline of
`src/window-runtime.mjs`. Persistent stores (idb-keyval) are modelled as
association lists; the Cache Storage API as an association list keyed by
(cacheName, url); network fetches as environment parameters. Each definition
mirrors the source function of the same name.
-/

/-- JS `fullUrl.startsWith(urlPrefix)`: character-level prefix test. -/
def jsStartsWith (fullUrl urlPref : String) : Bool :=
  urlPref.data.isPrefixOf fullUrl.data

/-- A parsed AppCache manifest, as produced by `parse-appcache-manifest` and
`makeManifestUrlsAbsolute`: the CACHE and NETWORK sections as ordered lists of
URLs (NETWORK may hold the wildcard `"*"`), and the FALLBACK section as an
association list from URL-prefix keys to fallback URLs, in JS object
insertion order. -/
structure Manifest where
  cache : List String
  network : List String
  fallback : List (String × String)
deriving DecidableEq, Repr

/-- One entry of a manifest's version history: `{hash, parsed}`. -/
structure ManifestVersion where
  hash : String
  parsed : Manifest
deriving DecidableEq, Repr

/-- idb-keyval `get(key, store)` over an association-list store. -/
def assocLookup {α : Type} : List (String × α) → String → Option α
  | [], _ => none
  | (k, v) :: rest, key => if k = key then some v else assocLookup rest key

/-- idb-keyval `set(key, value, store)`: replaces the binding in place when the
key is present, appends otherwise. -/
def setAssoc {α : Type} : List (String × α) → String → α → List (String × α)
  | [], key, v => [(key, v)]
  | (k, v') :: rest, key, v =>
      if k = key then (key, v) :: rest else (k, v') :: setAssoc rest key v

/-- The three IndexedDB stores the runtime uses:
`MANIFEST_URL_TO_CONTENTS` (manifest URL → version history, oldest first),
`PATH_TO_MANIFEST` (client page URL → manifest URL), and
`CLIENT_ID_TO_HASH` (client/session id → pinned hash; the stored value can be
JS `undefined`, modelled as `none`). -/
structure AppCacheDB where
  manifestUrlToContents : List (String × List ManifestVersion)
  pathToManifest : List (String × String)
  clientIdToHash : List (String × Option String)
deriving DecidableEq, Repr

/-- The Cache Storage API contents: entries keyed by (cacheName, url), valued
by the captured response body. `put` prepends, lookups take the first match,
so a later `put` shadows an earlier one. -/
abbrev ContentCache := List ((String × String) × String)

/-- `caches.match(url, {cacheName})`. -/
def cachesMatch (cc : ContentCache) (url cacheName : String) : Option String :=
  match cc.find? (fun e => e.1.1 == cacheName && e.1.2 == url) with
  | some e => some e.2
  | none => none

/-- `caches.match(url)` with no cache name: searches every cache. -/
def cachesMatchAny (cc : ContentCache) (url : String) : Option String :=
  match cc.find? (fun e => e.1.2 == url) with
  | some e => some e.2
  | none => none

/-- `cache.put(url, response)` on the cache named `cacheName`. -/
def cachePut (cc : ContentCache) (cacheName url body : String) : ContentCache :=
  ((cacheName, url), body) :: cc

/-- `caches.delete(id)` for each id in `names`: drops those caches whole. -/
def cachesDeleteAll (cc : ContentCache) (names : List String) : ContentCache :=
  cc.filter (fun e => decide (e.1.1 ∉ names))

/-- The action `appCacheLogic` (and its callers) settles on for a request.
`cacheMatch url cacheName` is `caches.match(url, {cacheName})`;
`fallbackFetch requestUrl fallbackUrl cacheName` is
`fetchWithFallback(request, fallbackUrl, cacheName)`;
`networkFetch` is a direct `fetch(event.request)`;
`errorResponse` is `Response.error()`. -/
inductive Resolution where
  | cacheMatch (url cacheName : String)
  | fallbackFetch (requestUrl fallbackUrl cacheName : String)
  | networkFetch (requestUrl : String)
  | errorResponse
deriving DecidableEq, Repr

/-- The reduce callback inside `longestMatchingPrefix`:
`(longestSoFar.length >= current.length) ? longestSoFar : current`. -/
def longerOf (longestSoFar current : String) : String :=
  if longestSoFar.length ≥ current.length then longestSoFar else current

/-- `longestMatchingPrefix(urlPrefixes, fullUrl)`: filter to the prefixes of
`fullUrl`, then reduce with `longerOf` starting from `''`. -/
def longestMatchingPrefix (urlPrefixes : List String) (fullUrl : String) : String :=
  (urlPrefixes.filter (fun urlPref => jsStartsWith fullUrl urlPref)).foldl longerOf ""

/-- What `fetch(request)` did inside `fetchWithFallback`: either the promise
rejected, or a response arrived with a given `ok` flag and final-URL origin. -/
inductive FetchOutcome where
  | failure
  | response (ok : Bool) (responseUrlOrigin : String)
deriving DecidableEq, Repr

/-- What `fetchWithFallback` returns: the network response itself, or the
cached fallback looked up as `caches.match(fallbackUrl, {cacheName})`. -/
inductive FallbackResult where
  | networkResponse
  | cachedFallback (fallbackUrl cacheName : String)
deriving DecidableEq, Repr

/-- `fetchWithFallback(request, fallbackUrl, cacheName)`: a rejected fetch, a
non-ok response, or a redirect to another origin all fall back to the cached
response; otherwise the network response is returned. -/
def fetchWithFallback (outcome : FetchOutcome) (selfOrigin fallbackUrl cacheName : String) :
    FallbackResult :=
  match outcome with
  | .failure => .cachedFallback fallbackUrl cacheName
  | .response ok origin =>
      if !ok || origin ≠ selfOrigin then .cachedFallback fallbackUrl cacheName
      else .networkResponse

/-- `getLatestManifestVersion(manifestUrl)`: the last entry of the stored
version history, or nothing when the manifest is unknown or its history is
empty. -/
def getLatestManifestVersion (db : AppCacheDB) (manifestUrl : String) :
    Option ManifestVersion :=
  match assocLookup db.manifestUrlToContents manifestUrl with
  | some manifests => manifests.getLast?
  | none => none

/-- `getParsedManifestVersion(manifestUrl, manifestHash)`: the parsed manifest
of the history entry whose hash matches, if any. -/
def getParsedManifestVersion (db : AppCacheDB) (manifestUrl manifestHash : String) :
    Option Manifest :=
  match ((assocLookup db.manifestUrlToContents manifestUrl).getD []).find?
      (fun manifest => manifest.hash == manifestHash) with
  | some manifest => some manifest.parsed
  | none => none

/-- The value `get(event.clientId, store)` yields from `CLIENT_ID_TO_HASH`:
an absent key and a stored `undefined` are both JS `undefined` (`none`). -/
def getClientHash (db : AppCacheDB) (clientId : String) : Option String :=
  match assocLookup db.clientIdToHash clientId with
  | some v => v
  | none => none

/-- `saveClientIdAndHash(clientId, hash)`: writes the association when
`clientId` is truthy. The hash written is whatever value the caller holds,
possibly `undefined`. -/
def saveClientIdAndHash (clientId : String) (hash : Option String) (db : AppCacheDB) :
    AppCacheDB :=
  if clientId ≠ "" then
    { db with clientIdToHash := setAssoc db.clientIdToHash clientId hash }
  else db

/-- The data of a FetchEvent that the runtime inspects. `xUseFetch` is
`headers.get('X-Use-Fetch') === 'true'`; `requestProtocol` is
`new URL(request.url).protocol`; a falsy `event.clientId` is `""`;
`clientUrl` is the platform-determined result of `getClientUrlForEvent`. -/
structure FetchEvent where
  requestUrl : String
  method : String
  xUseFetch : Bool
  requestProtocol : String
  clientId : String
  clientUrl : String
deriving DecidableEq, Repr

/-- `appCacheLogic(event, manifest, hash, clientUrl)`: CACHE section (or the
client URL itself) first, then the longest matching FALLBACK prefix, then the
NETWORK section or its wildcard, else `Response.error()`. -/
def appCacheLogic (requestUrl : String) (manifest : Manifest) (hash clientUrl : String) :
    Resolution :=
  if requestUrl ∈ manifest.cache ∨ requestUrl = clientUrl then
    .cacheMatch requestUrl hash
  else
    let fallbackKey := longestMatchingPrefix (manifest.fallback.map Prod.fst) requestUrl
    if fallbackKey ≠ "" then
      .fallbackFetch requestUrl ((assocLookup manifest.fallback fallbackKey).getD "") hash
    else if requestUrl ∈ manifest.network ∨ "*" ∈ manifest.network then
      .networkFetch requestUrl
    else
      .errorResponse

/-- `manifestBehavior(event, manifestUrl, clientUrl)`. Returns the resolution
(`none` models a thrown TypeError: dereferencing an `undefined` manifest) and
the store as updated by `saveClientIdAndHash`. When a truthy hash is already
stored for the client id, that pinned version is used; otherwise the value
just read (always falsy here) is saved back and the latest version is used. -/
def manifestBehavior (ev : FetchEvent) (manifestUrl clientUrl : String) (db : AppCacheDB) :
    Option Resolution × AppCacheDB :=
  let latestBranch : AppCacheDB → Option Resolution × AppCacheDB := fun db' =>
    match getLatestManifestVersion db' manifestUrl with
    | some latestManifest =>
        (some (appCacheLogic ev.requestUrl latestManifest.parsed latestManifest.hash clientUrl),
         db')
    | none => (none, db')
  if ev.clientId ≠ "" then
    match getClientHash db ev.clientId with
    | some h =>
        if h ≠ "" then
          match getParsedManifestVersion db manifestUrl h with
          | some parsedManifest =>
              (some (appCacheLogic ev.requestUrl parsedManifest h clientUrl), db)
          | none => (none, db)
        else latestBranch (saveClientIdAndHash ev.clientId (some h) db)
    | none => latestBranch (saveClientIdAndHash ev.clientId none db)
  else latestBranch db

/-- A JS value as it flows through `noManifestBehavior`'s reduce: either a
string or a pending Promise (the un-awaited results of `manifestUrls.map`). -/
inductive JsValue where
  | str (s : String)
  | pendingPromise
deriving DecidableEq, Repr

/-- Reading `.length` on such a value: strings have their length; a Promise
has no `length` property, so the access yields `undefined`. -/
def JsValue.lengthProp : JsValue → Option Nat
  | .str s => some s.length
  | .pendingPromise => none

/-- JS `a >= b` where either side may be `undefined`: any comparison
involving `undefined` (NaN after coercion) is false. -/
def jsGE : Option Nat → Option Nat → Bool
  | some a, some b => b ≤ a
  | _, _ => false

/-- JS truthiness of such a value: `''` is falsy, every Promise is truthy. -/
def JsValue.truthy : JsValue → Bool
  | .str s => s ≠ ""
  | .pendingPromise => true

/-- JS object-key coercion: a Promise used as a property key becomes the
string `"[object Promise]"`. -/
def JsValue.asKey : JsValue → String
  | .str s => s
  | .pendingPromise => "[object Promise]"

/-- The `longestForEach.reduce(...)` call of `noManifestBehavior`, with its
initial value `{prefix: '', index: 0}` and the comparison
`prefix.length >= previous.prefix.length`. -/
def noManifestReduce (longestForEach : List JsValue) : JsValue × Nat :=
  longestForEach.enum.foldl
    (fun previous entry =>
      if jsGE entry.2.lengthProp previous.1.lengthProp then (entry.2, entry.1) else previous)
    (JsValue.str "", 0)

/-- `noManifestBehavior(event)`. The source maps each manifest URL through an
async callback but awaits the resulting *array*, so `longestForEach` holds
pending Promises, never strings; the reduce then compares
`prefix.length` (`undefined`) against the accumulator and can never replace
the initial `{prefix: '', index: 0}`. -/
def noManifestBehavior (ev : FetchEvent) (db : AppCacheDB) :
    Option Resolution × AppCacheDB :=
  let manifestUrls := db.manifestUrlToContents.map Prod.fst
  let longestForEach : List JsValue := manifestUrls.map (fun _ => JsValue.pendingPromise)
  let longest : JsValue × Nat := noManifestReduce longestForEach
  let fallbackKey := longest.1
  if fallbackKey.truthy then
    let winningManifestUrl := manifestUrls.getD longest.2 ""
    match assocLookup db.manifestUrlToContents winningManifestUrl with
    | some manifests =>
        match manifests.getLast? with
        | some manifest =>
            (some (.fallbackFetch ev.requestUrl
              ((assocLookup manifest.parsed.fallback fallbackKey.asKey).getD "")
              manifest.hash), db)
        | none => (none, db)
    | none => (none, db)
  else
    (some (.networkFetch ev.requestUrl), db)

/-- `appCacheBehaviorForEvent(event)`: bypass-marked, non-GET and cross-scheme
requests go straight to the network; otherwise dispatch on whether a manifest
URL is bound to the client URL. -/
def appCacheBehaviorForEvent (locProtocol : String) (ev : FetchEvent) (db : AppCacheDB) :
    Option Resolution × AppCacheDB :=
  if ev.xUseFetch then (some (.networkFetch ev.requestUrl), db)
  else if ev.method ≠ "GET" ∨ ev.requestProtocol ≠ locProtocol then
    (some (.networkFetch ev.requestUrl), db)
  else
    match assocLookup db.pathToManifest ev.clientUrl with
    | some manifestUrl =>
        if manifestUrl ≠ "" then manifestBehavior ev manifestUrl ev.clientUrl db
        else noManifestBehavior ev db
    | none => noManifestBehavior ev db

/-- `cleanupClientIdAndHash(idsOfActiveClients)`: deletes the stale
client-id-to-hash entries and returns their hash values (possibly JS
`undefined`), in store order. -/
def cleanupClientIdAndHash (idsOfActiveClients : List String) (db : AppCacheDB) :
    List (Option String) × AppCacheDB :=
  let allKnownIds := db.clientIdToHash.map Prod.fst
  let idsOfInactiveClients :=
    allKnownIds.filter (fun kid => decide (kid ∉ idsOfActiveClients))
  (idsOfInactiveClients.map (fun kid => getClientHash db kid),
   { db with
      clientIdToHash := db.clientIdToHash.filter (fun e => decide (e.1 ∈ idsOfActiveClients)) })

/-- `getHashesOfOlderVersions()`: for every manifest, the hashes of all
history entries but the last. -/
def getHashesOfOlderVersions (db : AppCacheDB) : List String :=
  (db.manifestUrlToContents.map (fun e => e.2.dropLast.map ManifestVersion.hash)).flatten

/-- `cleanupOldCaches()`: a no-op while a cleanup is in progress; otherwise
frees the pins of inactive clients and deletes every cache whose hash is both
superseded and among the hashes just freed. -/
def cleanupOldCaches (cleanupInProgress : Bool) (idsOfActiveClients : List String)
    (db : AppCacheDB) (cc : ContentCache) : AppCacheDB × ContentCache :=
  if cleanupInProgress then (db, cc)
  else
    let r := cleanupClientIdAndHash idsOfActiveClients db
    let hashesNotInUse := r.1
    let db' := r.2
    let hashesOfOlderVersions := getHashesOfOlderVersions db'
    let idsToDelete :=
      hashesOfOlderVersions.filter (fun h => decide (some h ∈ hashesNotInUse))
    (db', cachesDeleteAll cc idsToDelete)

/-- What `fetch(request)` did for one URL during cache materialization in
`addToCache`: a rejected promise, or a response with its status, whether its
Cache-Control header contains `no-store`, and its body. -/
inductive FetchResult where
  | networkError
  | response (status : Nat) (noStore : Bool) (body : String)
deriving DecidableEq, Repr

/-- The external collaborators `window-runtime.mjs` uses: the SHA-256 digest
over `manifestUrl + manifestText` rendered as hex (`generateHash`), the
`parse-appcache-manifest` package, URL resolution
`(new URL(relativeUrl, baseUrl)).href`, and the network. -/
structure UpdateEnv where
  generateHash : String → String → String
  parseAppCacheManifest : String → Manifest
  resolveUrl : String → String → String
  fetchResource : String → FetchResult

/-- The observable operations of one manifest update, recorded so that "no
re-parsing" and "no additional content-cache writes" are checkable. -/
inductive UpdateOp where
  | parseOp (manifestText : String)
  | cachePutOp (cacheName url : String)
deriving DecidableEq, Repr

/-- `makeManifestUrlsAbsolute(baseUrl, originalManifest)`: resolves every URL
in the three sections against the manifest's own URL; the NETWORK wildcard
`"*"` passes through; fallback entries are written into a fresh object. -/
def makeManifestUrlsAbsolute (env : UpdateEnv) (baseUrl : String)
    (originalManifest : Manifest) : Manifest :=
  { cache := originalManifest.cache.map (fun relativeUrl => env.resolveUrl relativeUrl baseUrl),
    network := originalManifest.network.map (fun relativeUrl =>
      if relativeUrl = "*" then relativeUrl else env.resolveUrl relativeUrl baseUrl),
    fallback := originalManifest.fallback.foldl
      (fun acc kv => setAssoc acc (env.resolveUrl kv.1 baseUrl) (env.resolveUrl kv.2 baseUrl))
      [] }

/-- One iteration of `addToCache`'s per-URL fetch operation: skip a
`no-store` response; `cache.put` a successful one; skip a definitive 404/410;
on any other failure (rejected fetch or unexpected status, both reaching the
catch block) copy the currently cached copy of the URL, if one exists. -/
def addToCacheOne (env : UpdateEnv) (hash : String) (st : ContentCache × List UpdateOp)
    (url : String) : ContentCache × List UpdateOp :=
  match env.fetchResource url with
  | .networkError =>
      match cachesMatchAny st.1 url with
      | some body => (cachePut st.1 hash url body, st.2 ++ [.cachePutOp hash url])
      | none => st
  | .response status noStore body =>
      if noStore then st
      else if 200 ≤ status ∧ status ≤ 299 then
        (cachePut st.1 hash url body, st.2 ++ [.cachePutOp hash url])
      else if status = 404 ∨ status = 410 then st
      else
        match cachesMatchAny st.1 url with
        | some b => (cachePut st.1 hash url b, st.2 ++ [.cachePutOp hash url])
        | none => st

/-- `addToCache(hash, urls)`: materializes every URL into the cache named by
the manifest hash; per-URL failures are absorbed inside `addToCacheOne`, so
every URL of the list is processed. -/
def addToCache (env : UpdateEnv) (hash : String) (urls : List String)
    (st : ContentCache × List UpdateOp) : ContentCache × List UpdateOp :=
  urls.foldl (addToCacheOne env hash) st

/-- `performManifestUpdate(manifestUrl, manifestHash, manifestText,
previousManifests)`: parse and absolutize the manifest, append the new
version to the history, and cache the CACHE URLs, the fallback targets, and
every master-entry page already associated with this manifest URL. -/
def performManifestUpdate (env : UpdateEnv) (manifestUrl manifestHash manifestText : String)
    (previousManifests : List ManifestVersion) (db : AppCacheDB) (cc : ContentCache) :
    String × AppCacheDB × ContentCache × List UpdateOp :=
  let parsedManifest := makeManifestUrlsAbsolute env manifestUrl
    (env.parseAppCacheManifest manifestText)
  let newManifests := previousManifests ++ [⟨manifestHash, parsedManifest⟩]
  let fallbackUrls := parsedManifest.fallback.map Prod.snd
  let masterEntryUrls := (db.pathToManifest.filter (fun e => e.2 == manifestUrl)).map Prod.fst
  let urlsToCache := parsedManifest.cache ++ fallbackUrls ++ masterEntryUrls
  let r := addToCache env manifestHash urlsToCache (cc, [UpdateOp.parseOp manifestText])
  (manifestHash,
   { db with
      manifestUrlToContents := setAssoc db.manifestUrlToContents manifestUrl newManifests },
   r.1, r.2)

/-- `checkManifestVersion(manifestUrl)` with the fetched manifest text given:
compute the hash; if some history entry already carries it, return it with no
update (no parsing, no cache writes); otherwise run the full update. The
returned hash is `currentManifestHash` in both branches. -/
def checkManifestVersion (env : UpdateEnv) (manifestUrl manifestText : String)
    (db : AppCacheDB) (cc : ContentCache) :
    String × AppCacheDB × ContentCache × List UpdateOp :=
  let currentManifestHash := env.generateHash manifestUrl manifestText
  let previousManifests := (assocLookup db.manifestUrlToContents manifestUrl).getD []
  let isManifestKnown := previousManifests.any
    (fun previousManifest => previousManifest.hash == currentManifestHash)
  if isManifestKnown then (currentManifestHash, db, cc, [])
  else
    performManifestUpdate env manifestUrl currentManifestHash manifestText
      previousManifests db cc

/-- The expected conditions for resolution: whenever a manifest URL is bound
to the event's client URL, that manifest has a non-empty version history, and
any truthy hash pinned for the event's client id names an existing version.
(Outside these conditions the source dereferences an `undefined` manifest.) -/
def expectedState (ev : FetchEvent) (db : AppCacheDB) : Prop :=
  ∀ manifestUrl, assocLookup db.pathToManifest ev.clientUrl = some manifestUrl →
    manifestUrl ≠ "" →
    (getLatestManifestVersion db manifestUrl).isSome = true ∧
    ∀ h, getClientHash db ev.clientId = some h → h ≠ "" →
      (getParsedManifestVersion db manifestUrl h).isSome = true

/-! ### Helper lemmas -/

theorem assocLookup_setAssoc_self {α : Type} (l : List (String × α)) (k : String) (v : α) :
    assocLookup (setAssoc l k v) k = some v := by
  induction l with
  | nil => simp [setAssoc, assocLookup]
  | cons e rest ih =>
      obtain ⟨k', v'⟩ := e
      by_cases h : k' = k
      · simp [setAssoc, h, assocLookup]
      · simp [setAssoc, h, assocLookup, ih]

theorem assocLookup_some_mem {α : Type} {l : List (String × α)} {k : String} {v : α}
    (h : assocLookup l k = some v) : (k, v) ∈ l := by
  induction l with
  | nil => simp [assocLookup] at h
  | cons e rest ih =>
      obtain ⟨k', v'⟩ := e
      by_cases hk : k' = k
      · subst hk
        simp [assocLookup] at h
        subst h
        exact List.mem_cons_self _ _
      · simp [assocLookup, hk] at h
        exact List.mem_cons_of_mem _ (ih h)

theorem assocLookup_isSome_of_mem_keys {α : Type} {l : List (String × α)} {k : String}
    (h : k ∈ l.map Prod.fst) : ∃ v, assocLookup l k = some v := by
  induction l with
  | nil => simp at h
  | cons e rest ih =>
      obtain ⟨k', v'⟩ := e
      by_cases hk : k' = k
      · exact ⟨v', by simp [assocLookup, hk]⟩
      · simp only [List.map_cons] at h
        rcases List.mem_cons.mp h with h | h
        · exact absurd h.symm hk
        · obtain ⟨v, hv⟩ := ih h
          exact ⟨v, by simp [assocLookup, hk, hv]⟩

theorem length_pos_of_ne_empty {s : String} (h : s ≠ "") : 0 < s.length := by
  rcases Nat.eq_zero_or_pos s.length with h0 | hpos
  · exfalso
    apply h
    have hd : s.data = [] := List.length_eq_zero.mp h0
    cases s
    simp_all
  · exact hpos

theorem foldl_longerOf_le (l : List String) (acc : String) :
    acc.length ≤ (l.foldl longerOf acc).length := by
  induction l generalizing acc with
  | nil => simp
  | cons x xs ih =>
      simp only [List.foldl_cons]
      refine le_trans ?_ (ih (longerOf acc x))
      unfold longerOf
      by_cases h : acc.length ≥ x.length
      · simp [h]
      · simp only [h, if_neg, ite_false]
        omega

theorem foldl_longerOf_mem_le (l : List String) (acc x : String) (hx : x ∈ l) :
    x.length ≤ (l.foldl longerOf acc).length := by
  induction l generalizing acc with
  | nil => simp at hx
  | cons y ys ih =>
      simp only [List.foldl_cons]
      rcases List.mem_cons.mp hx with h | h
      · subst h
        refine le_trans ?_ (foldl_longerOf_le ys (longerOf acc x))
        unfold longerOf
        by_cases hc : acc.length ≥ x.length
        · simp [hc]
        · simp [hc]
      · exact ih (longerOf acc y) h

theorem foldl_longerOf_eq_or_mem (l : List String) (acc : String) :
    l.foldl longerOf acc = acc ∨ l.foldl longerOf acc ∈ l := by
  induction l generalizing acc with
  | nil => left; rfl
  | cons x xs ih =>
      simp only [List.foldl_cons]
      rcases ih (longerOf acc x) with h | h
      · rw [h]
        unfold longerOf
        by_cases hc : acc.length ≥ x.length
        · left; simp [hc]
        · right; simp [hc]
      · right; exact List.mem_cons_of_mem _ h

/-- The characteristic property of `longestMatchingPrefix`: as soon as some
nonempty prefix of `fullUrl` is among the keys, the result is a key, is a
prefix of `fullUrl`, is at least as long as every matching key, and is
nonempty (so the caller's truthiness test passes). -/
theorem longestMatchingPrefix_spec (urlPrefixes : List String) (fullUrl k : String)
    (hk : k ∈ urlPrefixes) (hpre : jsStartsWith fullUrl k = true) (hne : k ≠ "") :
    longestMatchingPrefix urlPrefixes fullUrl ∈ urlPrefixes ∧
    jsStartsWith fullUrl (longestMatchingPrefix urlPrefixes fullUrl) = true ∧
    (∀ k', k' ∈ urlPrefixes → jsStartsWith fullUrl k' = true →
      k'.length ≤ (longestMatchingPrefix urlPrefixes fullUrl).length) ∧
    longestMatchingPrefix urlPrefixes fullUrl ≠ "" := by
  have heq : longestMatchingPrefix urlPrefixes fullUrl =
      (urlPrefixes.filter (fun urlPref => jsStartsWith fullUrl urlPref)).foldl longerOf "" :=
    rfl
  have hkf : k ∈ urlPrefixes.filter (fun urlPref => jsStartsWith fullUrl urlPref) :=
    List.mem_filter.mpr ⟨hk, hpre⟩
  have hlen : k.length ≤ (longestMatchingPrefix urlPrefixes fullUrl).length := by
    rw [heq]; exact foldl_longerOf_mem_le _ "" k hkf
  have hrpos : 0 < (longestMatchingPrefix urlPrefixes fullUrl).length :=
    lt_of_lt_of_le (length_pos_of_ne_empty hne) hlen
  have hrne : longestMatchingPrefix urlPrefixes fullUrl ≠ "" := by
    intro he
    rw [he] at hrpos
    exact absurd hrpos (by decide)
  have hmem : longestMatchingPrefix urlPrefixes fullUrl ∈
      urlPrefixes.filter (fun urlPref => jsStartsWith fullUrl urlPref) := by
    rcases foldl_longerOf_eq_or_mem
        (urlPrefixes.filter (fun urlPref => jsStartsWith fullUrl urlPref)) "" with h | h
    · exact absurd (heq.trans h) hrne
    · rw [heq]; exact h
  refine ⟨(List.mem_filter.mp hmem).1, (List.mem_filter.mp hmem).2, ?_, hrne⟩
  intro k' hk' hpre'
  rw [heq]
  exact foldl_longerOf_mem_le _ "" k' (List.mem_filter.mpr ⟨hk', hpre'⟩)

theorem snd_mem_of_mem_enumFrom {α : Type} {l : List α} :
    ∀ {n : Nat} {p : Nat × α}, p ∈ l.enumFrom n → p.2 ∈ l := by
  induction l with
  | nil => intro n p h; simp [List.enumFrom] at h
  | cons x xs ih =>
      intro n p h
      rw [List.enumFrom_cons] at h
      rcases List.mem_cons.mp h with h | h
      · subst h; exact List.mem_cons_self _ _
      · exact List.mem_cons_of_mem _ (ih h)

theorem noManifestReduce_fixed (l : List JsValue)
    (hl : ∀ x ∈ l, x = JsValue.pendingPromise) :
    noManifestReduce l = (JsValue.str "", 0) := by
  unfold noManifestReduce
  have key : ∀ (el : List (Nat × JsValue)) (init : JsValue × Nat),
      (∀ e ∈ el, e.2 = JsValue.pendingPromise) →
      el.foldl (fun previous entry =>
        if jsGE entry.2.lengthProp previous.1.lengthProp then (entry.2, entry.1)
        else previous) init = init := by
    intro el
    induction el with
    | nil => intro init _; rfl
    | cons e rest ih =>
        intro init hall
        simp only [List.foldl_cons]
        have he : e.2 = JsValue.pendingPromise := hall e (List.mem_cons_self _ _)
        have hout : jsGE e.2.lengthProp init.1.lengthProp = false := by
          rw [he]
          cases init.1.lengthProp <;> rfl
        rw [hout]
        simp only [Bool.false_eq_true, if_false]
        exact ih init (fun x hx => hall x (List.mem_cons_of_mem _ hx))
  exact key _ _ (fun e he => hl e.2 (snd_mem_of_mem_enumFrom he))

/-- The `noManifestBehavior` promise bug: the reduce can never replace its
initial accumulator, so the function always performs a direct network fetch,
whatever fallback entries the stored manifests hold. -/
theorem noManifestBehavior_eq (ev : FetchEvent) (db : AppCacheDB) :
    noManifestBehavior ev db = (some (.networkFetch ev.requestUrl), db) := by
  unfold noManifestBehavior
  have h1 : noManifestReduce ((db.manifestUrlToContents.map Prod.fst).map
      (fun _ => JsValue.pendingPromise)) = (JsValue.str "", 0) :=
    noManifestReduce_fixed _ (fun x hx => by
      rcases List.mem_map.mp hx with ⟨a, _, ha⟩
      exact ha.symm)
  simp only [h1]
  rfl

theorem saveClientIdAndHash_manifestUrlToContents (clientId : String) (hash : Option String)
    (db : AppCacheDB) :
    (saveClientIdAndHash clientId hash db).manifestUrlToContents = db.manifestUrlToContents := by
  unfold saveClientIdAndHash
  split <;> rfl

theorem getLatestManifestVersion_save (clientId : String) (hash : Option String)
    (db : AppCacheDB) (manifestUrl : String) :
    getLatestManifestVersion (saveClientIdAndHash clientId hash db) manifestUrl =
      getLatestManifestVersion db manifestUrl := by
  unfold getLatestManifestVersion
  rw [saveClientIdAndHash_manifestUrlToContents]

theorem cachesDeleteAll_filter_eq (cc : ContentCache) (names : List String) (h : String)
    (hn : h ∉ names) :
    (cachesDeleteAll cc names).filter (fun e => decide (e.1.1 = h)) =
      cc.filter (fun e => decide (e.1.1 = h)) := by
  unfold cachesDeleteAll
  rw [List.filter_filter]
  apply List.filter_congr
  intro e _
  by_cases he : e.1.1 = h
  · simp [he, hn]
  · simp [he]

theorem cachesDeleteAll_filter_nil (cc : ContentCache) (names : List String) (h : String)
    (hn : h ∈ names) :
    (cachesDeleteAll cc names).filter (fun e => decide (e.1.1 = h)) = [] := by
  unfold cachesDeleteAll
  rw [List.filter_filter]
  apply List.filter_eq_nil_iff.mpr
  intro e _
  by_cases he : e.1.1 = h
  · simp [he, hn]
  · simp [he]

/-! ### Claim theorems -/

/-- C1: a request URL listed in the bound manifest's CACHE section, or equal
to the client (consumer) URL itself, resolves to the cache-match action for
that URL under the supplied version hash — no network fetch — regardless of
what the NETWORK section holds or which fallback prefixes would match. -/
theorem c1_cacheSectionWins (manifest : Manifest) (hash requestUrl clientUrl : String)
    (h : requestUrl ∈ manifest.cache ∨ requestUrl = clientUrl) :
    appCacheLogic requestUrl manifest hash clientUrl =
      Resolution.cacheMatch requestUrl hash := by
  unfold appCacheLogic
  exact if_pos h

/-- Witness for C1: the URL is in CACHE, is also listed in NETWORK, and a
fallback key matches it, yet the cache-match action is returned. -/
theorem c1_witness :
    appCacheLogic "u" ⟨["u"], ["u", "*"], [("u", "f")]⟩ "h1" "p" =
      Resolution.cacheMatch "u" "h1" :=
  c1_cacheSectionWins ⟨["u"], ["u", "*"], [("u", "f")]⟩ "h1" "u" "p" (Or.inl (by decide))

/-- C10: a request URL in the CACHE section (or equal to the client URL) for
which the content cache holds no entry under the version hash still resolves
to the cache-match action — whose lookup result is empty — and never falls
through to fallback matching, the NETWORK section, or a direct fetch. -/
theorem c10_emptyCacheHitNoFallthrough (manifest : Manifest)
    (hash requestUrl clientUrl : String) (cc : ContentCache)
    (h : requestUrl ∈ manifest.cache ∨ requestUrl = clientUrl)
    (hmiss : cachesMatch cc requestUrl hash = none) :
    appCacheLogic requestUrl manifest hash clientUrl =
      Resolution.cacheMatch requestUrl hash ∧
    cachesMatch cc requestUrl hash = none :=
  ⟨by unfold appCacheLogic; exact if_pos h, hmiss⟩

/-- Witness for C10: the cache-listed URL has no stored entry, yet the
resolution is still the (empty) cache match, not the matching fallback, the
NETWORK wildcard, or an error. -/
theorem c10_witness :
    appCacheLogic "u" ⟨["u"], ["*"], [("u", "f")]⟩ "h1" "p" =
      Resolution.cacheMatch "u" "h1" ∧
    cachesMatch [] "u" "h1" = none :=
  c10_emptyCacheHitNoFallthrough ⟨["u"], ["*"], [("u", "f")]⟩ "h1" "u" "p" []
    (Or.inl (by decide)) (by decide)

/-- C2: outside the CACHE section, when some nonempty fallback key prefixes
the request URL, the selected key is a matching key at least as long as every
matching key, and the resolution is fetch-with-fallback on that key's target
under the version hash; `fetchWithFallback` substitutes the cached fallback
exactly on failure (rejected fetch, non-ok status, cross-origin redirect) and
returns the network response on a same-origin ok response; and the spec's two
concrete longest-prefix examples hold. -/
theorem c2_fallbackLongestMatch :
    (∀ (manifest : Manifest) (hash requestUrl clientUrl k : String),
      k ∈ manifest.fallback.map Prod.fst → jsStartsWith requestUrl k = true → k ≠ "" →
      requestUrl ∉ manifest.cache → requestUrl ≠ clientUrl →
      ∃ kmax target,
        kmax ∈ manifest.fallback.map Prod.fst ∧
        jsStartsWith requestUrl kmax = true ∧
        (∀ k', k' ∈ manifest.fallback.map Prod.fst → jsStartsWith requestUrl k' = true →
          k'.length ≤ kmax.length) ∧
        assocLookup manifest.fallback kmax = some target ∧
        appCacheLogic requestUrl manifest hash clientUrl =
          Resolution.fallbackFetch requestUrl target hash) ∧
    (∀ selfOrigin fallbackUrl cacheName : String,
      fetchWithFallback .failure selfOrigin fallbackUrl cacheName =
        .cachedFallback fallbackUrl cacheName) ∧
    (∀ selfOrigin fallbackUrl cacheName origin : String,
      fetchWithFallback (.response false origin) selfOrigin fallbackUrl cacheName =
        .cachedFallback fallbackUrl cacheName) ∧
    (∀ selfOrigin fallbackUrl cacheName origin : String, origin ≠ selfOrigin →
      fetchWithFallback (.response true origin) selfOrigin fallbackUrl cacheName =
        .cachedFallback fallbackUrl cacheName) ∧
    (∀ selfOrigin fallbackUrl cacheName : String,
      fetchWithFallback (.response true selfOrigin) selfOrigin fallbackUrl cacheName =
        .networkResponse) ∧
    longestMatchingPrefix ["/a/", "/a/b/"] "/a/b/c" = "/a/b/" ∧
    longestMatchingPrefix ["/a/", "/a/b/"] "/a/x" = "/a/" := by
  refine ⟨?_, ?_, ?_, ?_, ?_, by decide, by decide⟩
  · intro manifest hash requestUrl clientUrl k hk hpre hne hc hcl
    obtain ⟨hmem, hpre', hlong, hne'⟩ :=
      longestMatchingPrefix_spec (manifest.fallback.map Prod.fst) requestUrl k hk hpre hne
    obtain ⟨target, htar⟩ := assocLookup_isSome_of_mem_keys hmem
    refine ⟨longestMatchingPrefix (manifest.fallback.map Prod.fst) requestUrl, target,
      hmem, hpre', hlong, htar, ?_⟩
    unfold appCacheLogic
    rw [if_neg (by push_neg; exact ⟨hc, hcl⟩)]
    simp only [if_pos hne', htar, Option.getD_some]
  · intro selfOrigin fallbackUrl cacheName
    rfl
  · intro selfOrigin fallbackUrl cacheName origin
    simp [fetchWithFallback]
  · intro selfOrigin fallbackUrl cacheName origin hor
    simp [fetchWithFallback, hor]
  · intro selfOrigin fallbackUrl cacheName
    simp [fetchWithFallback]

/-- Witness for C2, exercising each conjunct at concrete inputs. -/
theorem c2_witness :
    (∃ kmax target,
      kmax ∈ (Manifest.mk [] [] [("/a/", "/f"), ("/a/b/", "/g")]).fallback.map Prod.fst ∧
      jsStartsWith "/a/b/c" kmax = true ∧
      (∀ k', k' ∈ (Manifest.mk [] [] [("/a/", "/f"), ("/a/b/", "/g")]).fallback.map Prod.fst →
        jsStartsWith "/a/b/c" k' = true → k'.length ≤ kmax.length) ∧
      assocLookup (Manifest.mk [] [] [("/a/", "/f"), ("/a/b/", "/g")]).fallback kmax =
        some target ∧
      appCacheLogic "/a/b/c" (Manifest.mk [] [] [("/a/", "/f"), ("/a/b/", "/g")]) "h" "p" =
        Resolution.fallbackFetch "/a/b/c" target "h") ∧
    fetchWithFallback .failure "o" "f" "h" = .cachedFallback "f" "h" ∧
    fetchWithFallback (.response false "o") "o" "f" "h" = .cachedFallback "f" "h" ∧
    fetchWithFallback (.response true "x") "o" "f" "h" = .cachedFallback "f" "h" ∧
    fetchWithFallback (.response true "o") "o" "f" "h" = .networkResponse :=
  ⟨c2_fallbackLongestMatch.1 (Manifest.mk [] [] [("/a/", "/f"), ("/a/b/", "/g")])
      "h" "/a/b/c" "p" "/a/" (by decide) (by decide) (by decide) (by decide) (by decide),
   c2_fallbackLongestMatch.2.1 "o" "f" "h",
   c2_fallbackLongestMatch.2.2.1 "o" "f" "h" "o",
   c2_fallbackLongestMatch.2.2.2.1 "o" "f" "h" "x" (by decide),
   c2_fallbackLongestMatch.2.2.2.2.1 "o" "f" "h"⟩

/-- C3 (code bug): the session pin is never recorded with a real hash. On the
session's first request the runtime resolves against the latest version
`h1` but stores `undefined` for the client id; once version `h2` is appended
to the history, the *same* session's next request resolves against `h2`, not
against the version it first loaded with — there are no commit semantics. -/
theorem c3_pinNeverRecorded :
    (appCacheBehaviorForEvent "x:" ⟨"a", "GET", false, "x:", "s", "p"⟩
        ⟨[("m", [⟨"h1", ⟨["a"], [], []⟩⟩])], [("p", "m")], []⟩).1 =
      some (.cacheMatch "a" "h1") ∧
    (appCacheBehaviorForEvent "x:" ⟨"a", "GET", false, "x:", "s", "p"⟩
        ⟨[("m", [⟨"h1", ⟨["a"], [], []⟩⟩])], [("p", "m")], []⟩).2.clientIdToHash =
      [("s", none)] ∧
    (appCacheBehaviorForEvent "x:" ⟨"a", "GET", false, "x:", "s", "p"⟩
        ⟨[("m", [⟨"h1", ⟨["a"], [], []⟩⟩, ⟨"h2", ⟨["a"], [], []⟩⟩])], [("p", "m")],
          [("s", none)]⟩).1 =
      some (.cacheMatch "a" "h2") := by
  refine ⟨?_, ?_, ?_⟩ <;> decide

/-- C7 (code bug): with no manifest bound to the consumer, even though the
stored manifest's latest version has a fallback key `"/a/"` that prefixes the
request URL `"/a/x"`, resolution is a direct network fetch: the un-awaited
promises in `noManifestBehavior` make the cross-manifest fallback scan dead
code. -/
theorem c7_noManifestScanDead :
    jsStartsWith "/a/x" "/a/" = true ∧
    (∃ v, getLatestManifestVersion
        (AppCacheDB.mk [("m", [⟨"h1", ⟨[], [], [("/a/", "/f")]⟩⟩])] [] []) "m" = some v ∧
      ("/a/", "/f") ∈ v.parsed.fallback) ∧
    appCacheBehaviorForEvent "x:" ⟨"/a/x", "GET", false, "x:", "c", "p"⟩
        (AppCacheDB.mk [("m", [⟨"h1", ⟨[], [], [("/a/", "/f")]⟩⟩])] [] []) =
      (some (.networkFetch "/a/x"),
       AppCacheDB.mk [("m", [⟨"h1", ⟨[], [], [("/a/", "/f")]⟩⟩])] [] []) := by
  refine ⟨by decide, ⟨⟨"h1", ⟨[], [], [("/a/", "/f")]⟩⟩, by decide, by decide⟩, by decide⟩

/-- C4: running `checkManifestVersion` a second time with an unchanged
manifest body (same URL and text, hence the same computed hash, which the
first run left in the version history) returns the same hash, leaves the
stores and the content cache unchanged, and performs no parse and no cache
write. -/
theorem c4_secondUpdateNoOp (env : UpdateEnv) (manifestUrl manifestText : String)
    (db db1 db2 : AppCacheDB) (cc cc1 cc2 : ContentCache) (h1 h2 : String)
    (ops1 ops2 : List UpdateOp)
    (hr1 : checkManifestVersion env manifestUrl manifestText db cc = (h1, db1, cc1, ops1))
    (hr2 : checkManifestVersion env manifestUrl manifestText db1 cc1 = (h2, db2, cc2, ops2)) :
    h2 = h1 ∧ db2 = db1 ∧ cc2 = cc1 ∧ ops2 = [] := by
  have hstep : h1 = env.generateHash manifestUrl manifestText ∧
      ((assocLookup db1.manifestUrlToContents manifestUrl).getD []).any
        (fun previousManifest =>
          previousManifest.hash == env.generateHash manifestUrl manifestText) = true := by
    simp only [checkManifestVersion] at hr1
    by_cases hk : ((assocLookup db.manifestUrlToContents manifestUrl).getD []).any
        (fun previousManifest =>
          previousManifest.hash == env.generateHash manifestUrl manifestText) = true
    · rw [if_pos hk] at hr1
      simp only [Prod.mk.injEq] at hr1
      obtain ⟨e1, e2, -⟩ := hr1
      subst e1
      rw [← e2]
      exact ⟨rfl, hk⟩
    · rw [if_neg hk] at hr1
      simp only [performManifestUpdate, Prod.mk.injEq] at hr1
      obtain ⟨e1, e2, -⟩ := hr1
      subst e1
      refine ⟨rfl, ?_⟩
      rw [← e2]
      simp [assocLookup_setAssoc_self]
  obtain ⟨hH, hk2⟩ := hstep
  simp only [checkManifestVersion] at hr2
  rw [if_pos hk2] at hr2
  simp only [Prod.mk.injEq] at hr2
  obtain ⟨f1, f2, f3, f4⟩ := hr2
  exact ⟨f1.symm.trans hH.symm, f2.symm, f3.symm, f4.symm⟩

/-- Witness for C4: a first update on empty stores followed by a second call
with the same manifest body returns the same hash and changes nothing. -/
theorem c4_witness :
    (let env : UpdateEnv := ⟨fun _ _ => "H", fun _ => ⟨[], [], []⟩, fun u _ => u,
        fun _ => FetchResult.networkError⟩
     let r1 := checkManifestVersion env "m" "T" ⟨[], [], []⟩ []
     let r2 := checkManifestVersion env "m" "T" r1.2.1 r1.2.2.1
     r2.1 = r1.1 ∧ r2.2.1 = r1.2.1 ∧ r2.2.2.1 = r1.2.2.1 ∧ r2.2.2.2 = []) := by
  have h := c4_secondUpdateNoOp
    ⟨fun _ _ => "H", fun _ => ⟨[], [], []⟩, fun u _ => u, fun _ => FetchResult.networkError⟩
    "m" "T" ⟨[], [], []⟩ _ _ [] _ _ _ _ _ _ rfl rfl
  exact ⟨h.1, h.2.1, h.2.2.1, h.2.2.2⟩

/-- C5 counterexample: version hash `"h1"` is superseded and pinned by the
*active* session `"a"`, but because the inactive session `"b"` also pinned
it, the sweep frees `"h1"` and deletes its cache — the claim's "never deleted
when pinned by an active session" fails. -/
theorem c5_counterexample :
    ("a", some "h1") ∈
      (AppCacheDB.mk [("m", [⟨"h1", ⟨[], [], []⟩⟩, ⟨"h2", ⟨[], [], []⟩⟩])] []
        [("a", some "h1"), ("b", some "h1")]).clientIdToHash ∧
    "a" ∈ ["a"] ∧
    "h1" ∈ getHashesOfOlderVersions
      (AppCacheDB.mk [("m", [⟨"h1", ⟨[], [], []⟩⟩, ⟨"h2", ⟨[], [], []⟩⟩])] []
        [("a", some "h1"), ("b", some "h1")]) ∧
    (cleanupOldCaches false ["a"]
        (AppCacheDB.mk [("m", [⟨"h1", ⟨[], [], []⟩⟩, ⟨"h2", ⟨[], [], []⟩⟩])] []
          [("a", some "h1"), ("b", some "h1")])
        [(("h1", "u"), "body")]).2 = [] := by
  refine ⟨?_, ?_, ?_, ?_⟩ <;> decide

/-- C5 (amended): a version hash pinned by at least one active session *and
by no inactive session* is never deleted by a sweep, even when superseded:
its cache entries survive unchanged. -/
theorem c5_gcSafetyAmended (idsOfActiveClients : List String) (db : AppCacheDB)
    (cc : ContentCache) (h : String)
    (_hactive : ∃ cid, assocLookup db.clientIdToHash cid = some (some h) ∧
      cid ∈ idsOfActiveClients)
    (hnostale : ∀ cid v, (cid, v) ∈ db.clientIdToHash → v = some h →
      cid ∈ idsOfActiveClients) :
    ((cleanupOldCaches false idsOfActiveClients db cc).2).filter
        (fun e => decide (e.1.1 = h)) =
      cc.filter (fun e => decide (e.1.1 = h)) := by
  simp only [cleanupOldCaches, Bool.false_eq_true, if_false]
  apply cachesDeleteAll_filter_eq
  intro hmem
  rcases List.mem_filter.mp hmem with ⟨-, hdec⟩
  have hin : some h ∈ (cleanupClientIdAndHash idsOfActiveClients db).1 :=
    of_decide_eq_true hdec
  have hfst : (cleanupClientIdAndHash idsOfActiveClients db).1 =
      ((db.clientIdToHash.map Prod.fst).filter
        (fun kid => decide (kid ∉ idsOfActiveClients))).map
        (fun kid => getClientHash db kid) := rfl
  rw [hfst] at hin
  rcases List.mem_map.mp hin with ⟨cid, hcidmem, hch⟩
  rcases List.mem_filter.mp hcidmem with ⟨-, hdecin⟩
  have hnact : cid ∉ idsOfActiveClients := of_decide_eq_true hdecin
  have hlk : assocLookup db.clientIdToHash cid = some (some h) := by
    unfold getClientHash at hch
    cases hl : assocLookup db.clientIdToHash cid with
    | none => rw [hl] at hch; simp at hch
    | some v => rw [hl] at hch; simp at hch; rw [hch]
  exact hnact (hnostale cid (some h) (assocLookup_some_mem hlk) rfl)

/-- Witness for C5 (amended): hash `"h1"` is pinned only by active session
`"a"`; the sweep deletes nothing of its cache even though it is superseded. -/
theorem c5_witness :
    ((cleanupOldCaches false ["a"]
        (AppCacheDB.mk [("m", [⟨"h1", ⟨[], [], []⟩⟩, ⟨"h2", ⟨[], [], []⟩⟩])] []
          [("a", some "h1")])
        [(("h1", "u"), "body")]).2).filter (fun e => decide (e.1.1 = "h1")) =
      ([(("h1", "u"), "body")] : ContentCache).filter (fun e => decide (e.1.1 = "h1")) := by
  apply c5_gcSafetyAmended
  · exact ⟨"a", by decide, by decide⟩
  · intro cid v hmem hv
    subst hv
    cases hmem with
    | head => decide
    | tail _ h2 => cases h2

/-- C6 counterexample: hash `"h1"` is superseded and pinned by no session at
all (zero active pins), yet the sweep leaves its cache untouched: the code
only deletes hashes whose pin was just freed from a stale session entry. -/
theorem c6_counterexample :
    "h1" ∈ getHashesOfOlderVersions
      (AppCacheDB.mk [("m", [⟨"h1", ⟨[], [], []⟩⟩, ⟨"h2", ⟨[], [], []⟩⟩])] [] []) ∧
    (AppCacheDB.mk [("m", [⟨"h1", ⟨[], [], []⟩⟩, ⟨"h2", ⟨[], [], []⟩⟩])] []
      []).clientIdToHash = [] ∧
    (cleanupOldCaches false []
        (AppCacheDB.mk [("m", [⟨"h1", ⟨[], [], []⟩⟩, ⟨"h2", ⟨[], [], []⟩⟩])] [] [])
        [(("h1", "u"), "body")]).2 = [(("h1", "u"), "body")] := by
  refine ⟨?_, ?_, ?_⟩ <;> decide

/-- C6 (amended): a superseded version hash with zero active-session pins
that is pinned by at least one *inactive* session is deleted by the next
sweep: no cache entry under that hash survives. -/
theorem c6_gcLivenessAmended (idsOfActiveClients : List String) (db : AppCacheDB)
    (cc : ContentCache) (h : String)
    (hsup : h ∈ getHashesOfOlderVersions db)
    (hstale : ∃ cid, assocLookup db.clientIdToHash cid = some (some h) ∧
      cid ∉ idsOfActiveClients)
    (_hnoactive : ∀ cid v, (cid, v) ∈ db.clientIdToHash → v = some h →
      cid ∉ idsOfActiveClients) :
    ((cleanupOldCaches false idsOfActiveClients db cc).2).filter
        (fun e => decide (e.1.1 = h)) = [] := by
  simp only [cleanupOldCaches, Bool.false_eq_true, if_false]
  apply cachesDeleteAll_filter_nil
  apply List.mem_filter.mpr
  constructor
  · exact hsup
  · apply decide_eq_true
    obtain ⟨cid, hlk, hnact⟩ := hstale
    have hkn : cid ∈ db.clientIdToHash.map Prod.fst :=
      List.mem_map.mpr ⟨(cid, some h), assocLookup_some_mem hlk, rfl⟩
    have hcid : cid ∈ (db.clientIdToHash.map Prod.fst).filter
        (fun kid => decide (kid ∉ idsOfActiveClients)) :=
      List.mem_filter.mpr ⟨hkn, decide_eq_true hnact⟩
    have hfst : (cleanupClientIdAndHash idsOfActiveClients db).1 =
        ((db.clientIdToHash.map Prod.fst).filter
          (fun kid => decide (kid ∉ idsOfActiveClients))).map
          (fun kid => getClientHash db kid) := rfl
    rw [hfst]
    refine List.mem_map.mpr ⟨cid, hcid, ?_⟩
    unfold getClientHash
    rw [hlk]

/-- Witness for C6 (amended): superseded `"h1"`, pinned only by the inactive
session `"b"`, has its whole cache namespace removed by the sweep. -/
theorem c6_witness :
    ((cleanupOldCaches false []
        (AppCacheDB.mk [("m", [⟨"h1", ⟨[], [], []⟩⟩, ⟨"h2", ⟨[], [], []⟩⟩])] []
          [("b", some "h1")])
        [(("h1", "u"), "body")]).2).filter (fun e => decide (e.1.1 = "h1")) = [] := by
  apply c6_gcLivenessAmended
  · decide
  · exact ⟨"b", by decide, by decide⟩
  · intro cid v hmem hv
    cases hmem with
    | head => decide
    | tail _ h2 => cases h2

/-- `manifestBehavior` yields a resolution value whenever the bound manifest
has a latest version and every truthy pinned hash names a stored version. -/
theorem manifestBehavior_isSome (ev : FetchEvent) (manifestUrl : String) (db : AppCacheDB)
    (hlat : (getLatestManifestVersion db manifestUrl).isSome = true)
    (hpin : ∀ h, getClientHash db ev.clientId = some h → h ≠ "" →
      (getParsedManifestVersion db manifestUrl h).isSome = true) :
    ((manifestBehavior ev manifestUrl ev.clientUrl db).1).isSome = true := by
  unfold manifestBehavior
  simp only []
  split
  · split
    · rename_i h heq
      split
      · rename_i hne
        split
        · rfl
        · rename_i heqp
          have hx := hpin h heq hne
          rw [heqp] at hx
          simp at hx
      · split
        · rfl
        · rename_i heql
          rw [getLatestManifestVersion_save] at heql
          rw [heql] at hlat
          simp at hlat
    · split
      · rfl
      · rename_i heql
        rw [getLatestManifestVersion_save] at heql
        rw [heql] at hlat
        simp at hlat
  · split
    · rfl
    · rename_i heql
      rw [heql] at hlat
      simp at hlat

/-- C8: under the expected conditions resolution is total — bypass-marked,
non-GET and cross-scheme requests, bound-manifest requests (pinned or not)
and no-manifest requests all produce a response value — and a request
matching none of CACHE, FALLBACK and NETWORK (and different from the client
URL) produces the network-error-shaped response rather than an exception. -/
theorem c8_resolutionTotal :
    (∀ (locProtocol : String) (ev : FetchEvent) (db : AppCacheDB),
      expectedState ev db →
      ((appCacheBehaviorForEvent locProtocol ev db).1).isSome = true) ∧
    (∀ (manifest : Manifest) (hash requestUrl clientUrl : String),
      requestUrl ∉ manifest.cache → requestUrl ≠ clientUrl →
      (∀ k, k ∈ manifest.fallback.map Prod.fst → jsStartsWith requestUrl k = false) →
      requestUrl ∉ manifest.network → "*" ∉ manifest.network →
      appCacheLogic requestUrl manifest hash clientUrl = Resolution.errorResponse) := by
  constructor
  · intro locProtocol ev db hexp
    unfold appCacheBehaviorForEvent
    by_cases hx : ev.xUseFetch = true
    · rw [if_pos hx]
      rfl
    · rw [if_neg hx]
      by_cases hg : ev.method ≠ "GET" ∨ ev.requestProtocol ≠ locProtocol
      · rw [if_pos hg]
        rfl
      · rw [if_neg hg]
        cases hmu : assocLookup db.pathToManifest ev.clientUrl with
        | none =>
            show ((noManifestBehavior ev db).1).isSome = true
            rw [noManifestBehavior_eq]
            rfl
        | some manifestUrl =>
            show ((if manifestUrl ≠ "" then manifestBehavior ev manifestUrl ev.clientUrl db
              else noManifestBehavior ev db).1).isSome = true
            by_cases hmu0 : manifestUrl ≠ ""
            · rw [if_pos hmu0]
              obtain ⟨hlat, hpin⟩ := hexp manifestUrl hmu hmu0
              exact manifestBehavior_isSome ev manifestUrl db hlat hpin
            · rw [if_neg hmu0]
              rw [noManifestBehavior_eq]
              rfl
  · intro manifest hash requestUrl clientUrl hc hcl hfb hn hw
    unfold appCacheLogic
    rw [if_neg (by push_neg; exact ⟨hc, hcl⟩)]
    have hkey : longestMatchingPrefix (manifest.fallback.map Prod.fst) requestUrl = "" := by
      unfold longestMatchingPrefix
      have hnil : (manifest.fallback.map Prod.fst).filter
          (fun urlPref => jsStartsWith requestUrl urlPref) = [] :=
        List.filter_eq_nil_iff.mpr (fun k hk => by simp [hfb k hk])
      rw [hnil]
      rfl
    simp only []
    rw [hkey]
    rw [if_neg (by simp)]
    rw [if_neg (by push_neg; exact ⟨hn, hw⟩)]

/-- Witness for C8: a request with no bound manifest resolves to a value, and
an all-empty manifest blocks an unrelated request with an error response. -/
theorem c8_witness :
    ((appCacheBehaviorForEvent "x:" ⟨"u", "GET", false, "x:", "", "p"⟩
        (AppCacheDB.mk [] [] [])).1).isSome = true ∧
    appCacheLogic "u" ⟨[], [], []⟩ "h" "p" = Resolution.errorResponse :=
  ⟨c8_resolutionTotal.1 "x:" ⟨"u", "GET", false, "x:", "", "p"⟩ (AppCacheDB.mk [] [] [])
      (fun manifestUrl hmu => by simp [assocLookup] at hmu),
   c8_resolutionTotal.2 ⟨[], [], []⟩ "h" "u" "p" (by simp) (by decide)
     (by intro k hk; simp at hk) (by simp) (by simp)⟩

/-- C9: during materialization of a new version, per URL: a `no-store`
response is skipped (even before the status is examined); a successful (2xx)
response is stored under the new version's cache; a 404 or 410 is skipped
without error; any other failure — a rejected fetch or an unexpected
status — copies the currently cached copy of the URL if one exists (and
otherwise leaves the URL absent); and processing one URL never aborts the
processing of the remaining URLs of the update. -/
theorem c9_materializationPerUrl :
    (∀ (env : UpdateEnv) (hash url : String) (cc : ContentCache) (ops : List UpdateOp)
        (status : Nat) (body : String),
      env.fetchResource url = .response status true body →
      addToCacheOne env hash (cc, ops) url = (cc, ops)) ∧
    (∀ (env : UpdateEnv) (hash url : String) (cc : ContentCache) (ops : List UpdateOp)
        (status : Nat) (body : String),
      env.fetchResource url = .response status false body →
      200 ≤ status → status ≤ 299 →
      addToCacheOne env hash (cc, ops) url =
        (cachePut cc hash url body, ops ++ [.cachePutOp hash url])) ∧
    (∀ (env : UpdateEnv) (hash url : String) (cc : ContentCache) (ops : List UpdateOp)
        (body : String),
      env.fetchResource url = .response 404 false body ∨
        env.fetchResource url = .response 410 false body →
      addToCacheOne env hash (cc, ops) url = (cc, ops)) ∧
    (∀ (env : UpdateEnv) (hash url : String) (cc : ContentCache) (ops : List UpdateOp),
      env.fetchResource url = .networkError →
      addToCacheOne env hash (cc, ops) url =
        (match cachesMatchAny cc url with
         | some body => (cachePut cc hash url body, ops ++ [.cachePutOp hash url])
         | none => (cc, ops))) ∧
    (∀ (env : UpdateEnv) (hash url : String) (cc : ContentCache) (ops : List UpdateOp)
        (status : Nat) (body : String),
      env.fetchResource url = .response status false body →
      ¬(200 ≤ status ∧ status ≤ 299) → status ≠ 404 → status ≠ 410 →
      addToCacheOne env hash (cc, ops) url =
        (match cachesMatchAny cc url with
         | some b => (cachePut cc hash url b, ops ++ [.cachePutOp hash url])
         | none => (cc, ops))) ∧
    (∀ (env : UpdateEnv) (hash : String) (urls : List String) (url : String)
        (st : ContentCache × List UpdateOp),
      addToCache env hash (urls ++ [url]) st =
        addToCacheOne env hash (addToCache env hash urls st) url) := by
  refine ⟨?_, ?_, ?_, ?_, ?_, ?_⟩
  · intro env hash url cc ops status body hf
    unfold addToCacheOne
    rw [hf]
    rfl
  · intro env hash url cc ops status body hf h200 h299
    unfold addToCacheOne
    rw [hf]
    simp only [if_pos (⟨h200, h299⟩ : 200 ≤ status ∧ status ≤ 299)]
    rfl
  · intro env hash url cc ops body hf
    unfold addToCacheOne
    rcases hf with hf | hf <;> rw [hf] <;> norm_num
  · intro env hash url cc ops hf
    unfold addToCacheOne
    rw [hf]
  · intro env hash url cc ops status body hf hok h404 h410
    unfold addToCacheOne
    rw [hf]
    simp only [if_neg hok, if_neg (by simp [h404, h410] : ¬(status = 404 ∨ status = 410))]
    rfl
  · intro env hash urls url st
    unfold addToCache
    rw [List.foldl_append]
    rfl

/-- Witness for C9, exercising every per-URL case at a concrete environment:
a no-store response, a 200, a 404, a network error with a previously cached
copy, a 500 with a previously cached copy, and append-processing. -/
theorem c9_witness :
    (let env : UpdateEnv := ⟨fun _ _ => "H", fun _ => ⟨[], [], []⟩, fun u _ => u,
        fun u =>
          if u = "ns" then .response 503 true "B1"
          else if u = "ok" then .response 200 false "B2"
          else if u = "gone" then .response 404 false "B3"
          else if u = "err" then .response 500 false "B4"
          else .networkError⟩
     addToCacheOne env "h" ([], []) "ns" = ([], []) ∧
     addToCacheOne env "h" ([], []) "ok" =
       ([(("h", "ok"), "B2")], [UpdateOp.cachePutOp "h" "ok"]) ∧
     addToCacheOne env "h" ([], []) "gone" = ([], []) ∧
     addToCacheOne env "h" ([(("p", "down"), "B0")], []) "down" =
       ([(("h", "down"), "B0"), (("p", "down"), "B0")], [UpdateOp.cachePutOp "h" "down"]) ∧
     addToCacheOne env "h" ([(("p", "err"), "B5")], []) "err" =
       ([(("h", "err"), "B5"), (("p", "err"), "B5")], [UpdateOp.cachePutOp "h" "err"]) ∧
     addToCache env "h" (["ns", "ok"] ++ ["gone"]) ([], []) =
       addToCacheOne env "h" (addToCache env "h" ["ns", "ok"] ([], [])) "gone") := by
  refine ⟨?_, ?_, ?_, ?_, ?_, ?_⟩
  · exact c9_materializationPerUrl.1 _ "h" "ns" [] [] 503 "B1" rfl
  · exact c9_materializationPerUrl.2.1 _ "h" "ok" [] [] 200 "B2" rfl (by norm_num)
      (by norm_num)
  · exact c9_materializationPerUrl.2.2.1 _ "h" "gone" [] [] "B3" (Or.inl rfl)
  · exact (c9_materializationPerUrl.2.2.2.1 _ "h" "down" [(("p", "down"), "B0")] []
      rfl).trans (by decide)
  · exact (c9_materializationPerUrl.2.2.2.2.1 _ "h" "err" [(("p", "err"), "B5")] [] 500 "B4"
      rfl (by norm_num) (by norm_num) (by norm_num)).trans (by decide)
  · exact c9_materializationPerUrl.2.2.2.2.2 _ "h" ["ns", "ok"] "gone" ([], [])
